import Mathlib

/-!
Shallow embedding of `src/measure_jitter.py`, a UDP round-trip jitter probe.

The script sends a 1-byte request, receives up to 8 bytes (`sock.recv(8)`),
records `(t1 - t0) * 1_000_000` as the latency in microseconds and the
little-endian `<Q` decoding of the received bytes as the hardware timestamp,
for `COUNT` iterations, with `gc.collect(); gc.disable()` before the loop and
`gc.enable()` in a `finally` clause.  Afterwards it computes
`min`, `max`, `statistics.mean`, `statistics.stdev` and
`jitter = max - min` over the latencies and prints them together with
`hw_timestamps[-1]`.

Machine floats are modelled with exact rationals; `statistics.stdev`
returns a real number (a square root).  The network and the monotonic clock
are modelled by an environment `Env` giving, per iteration, the two clock
readings and what the `recv` call observes.
-/

namespace MeasureJitter

/-- What a single `sock.recv(8)` call observes: the socket timeout fires
(`socket.timeout`), some other socket error is raised (`OSError`), or a
datagram with the given byte payload arrives. -/
inductive RecvEvent where
  | timeout : RecvEvent
  | sockError : RecvEvent
  | datagram : List Nat → RecvEvent
deriving DecidableEq

/-- Per-run environment: the monotonic clock values `time.perf_counter`
returns before the send (`t0`) and after the receive (`t1`) of iteration
`i`, and the network behaviour of iteration `i`'s receive. -/
structure Env where
  t0 : Nat → ℚ
  t1 : Nat → ℚ
  recvEv : Nat → RecvEvent

/-- The ways the script can abort (uncaught Python exceptions). -/
inductive RunError where
  | timeoutAt : Nat → RunError
  | sockErrorAt : Nat → RunError
  | structErrorAt : Nat → RunError
  | statisticsError : RunError
  | valueError : RunError
deriving DecidableEq

/-- Little-endian base-256 decoding of a byte list, as
`struct.unpack` with format `<Q` does on its 8 input bytes. -/
def leDecode (bs : List Nat) : Nat :=
  bs.foldr (fun b acc => b + 256 * acc) 0

/-- Little-endian encoding of `v` into `k` bytes (used to describe the
peer's wire format; `k = 8` for the `<Q` format). -/
def leEncodeAux : Nat → Nat → List Nat
  | 0, _ => []
  | k + 1, v => v % 256 :: leEncodeAux k (v / 256)

/-- The 8-byte little-endian encoding of `v`, the peer's response format. -/
def leEncode (v : Nat) : List Nat := leEncodeAux 8 v

/-- Line 40, `unpack` with format `<Q`: succeeds only on exactly 8 bytes
(otherwise `struct.error` is raised), returning the little-endian value. -/
def unpackQ (bs : List Nat) : Option Nat :=
  if bs.length = 8 then some (leDecode bs) else none

/-- Line 34, `recv 8` on an arrived datagram: at most the first 8 bytes of
the payload are returned; the rest of the datagram is discarded (UDP). -/
def recv8 (payload : List Nat) : List Nat := payload.take 8

/-- One iteration of the measurement loop (lines 31-40): on a datagram,
the recorded latency `(t1 - t0) * 1_000_000` and the decoded hardware
timestamp; on a timeout, socket error or short payload, the exception. -/
def runIter (e : Env) (i : Nat) : Except RunError (ℚ × Nat) :=
  match e.recvEv i with
  | RecvEvent.timeout => Except.error (RunError.timeoutAt i)
  | RecvEvent.sockError => Except.error (RunError.sockErrorAt i)
  | RecvEvent.datagram payload =>
    match unpackQ (recv8 payload) with
    | none => Except.error (RunError.structErrorAt i)
    | some hw => Except.ok ((e.t1 i - e.t0 i) * 1000000, hw)

/-- The measurement loop from iteration `i`, `n` iterations remaining:
the fully populated latency and hardware-timestamp sequences, or the first
exception, which aborts the whole loop. -/
def runLoopFrom (e : Env) : Nat → Nat → Except RunError (List ℚ × List Nat)
  | _, 0 => Except.ok ([], [])
  | i, n + 1 =>
    match runIter e i with
    | Except.error err => Except.error err
    | Except.ok (lat, hw) =>
      match runLoopFrom e (i + 1) n with
      | Except.error err => Except.error err
      | Except.ok (ls, hs) => Except.ok (lat :: ls, hw :: hs)

/-- The whole measurement loop, lines 30-40. -/
def runLoop (e : Env) (count : Nat) : Except RunError (List ℚ × List Nat) :=
  runLoopFrom e 0 count

/-- Observable side effects of the script, in program order. -/
inductive Action where
  | socketOpen : Action
  | socketConnect : Action
  | setTimeout : Action
  | gcCollect : Action
  | gcDisable : Action
  | sendReq : Nat → Action
  | recvDone : Nat → Action
  | gcEnable : Action
  | printReport : Action
deriving DecidableEq

/-- Side effects of iteration `i`: the send always happens; the receive
completes only when a datagram arrives (lines 33-34). -/
def iterActs (e : Env) (i : Nat) : List Action :=
  match e.recvEv i with
  | RecvEvent.timeout => [Action.sendReq i]
  | RecvEvent.sockError => [Action.sendReq i]
  | RecvEvent.datagram _ => [Action.sendReq i, Action.recvDone i]

/-- Side effects of the loop from iteration `i` with `n` remaining: the
trace stops at the first failing iteration. -/
def loopTrace (e : Env) : Nat → Nat → List Action
  | _, 0 => []
  | i, n + 1 =>
    match runIter e i with
    | Except.error _ => iterActs e i
    | Except.ok _ => iterActs e i ++ loopTrace e (i + 1) n

/-- Python's binary `min` on two values: the first argument on ties. -/
def pymin (a b : ℚ) : ℚ := if a ≤ b then a else b

/-- Python's binary `max` on two values. -/
def pymax (a b : ℚ) : ℚ := if b ≤ a then a else b

/-- Line 45, the built-in min of the latency sequence: defined for a
nonempty sequence, `ValueError` (`none`) on an empty one. -/
def listMin : List ℚ → Option ℚ
  | [] => none
  | x :: xs => some (xs.foldl pymin x)

/-- Line 46, the built-in max of the latency sequence. -/
def listMax : List ℚ → Option ℚ
  | [] => none
  | x :: xs => some (xs.foldl pymax x)

/-- Line 47, `statistics.mean` on exact values: the sum divided by the
length. -/
def mean (xs : List ℚ) : ℚ := xs.sum / xs.length

/-- The sum of squared deviations as CPython's `statistics._ss` computes
it: `total = sum((x - c)**2)` corrected by `- sum(x - c)**2 / n`, with
`c = mean(data)`. -/
def pySS (xs : List ℚ) : ℚ :=
  (xs.map (fun x => (x - mean xs) ^ 2)).sum -
    ((xs.map (fun x => x - mean xs)).sum) ^ 2 / xs.length

/-- Line 48, `statistics.stdev`: the square root of the Bessel-corrected
(`n - 1` denominator) sample variance built from `pySS`.  Defined only as
a real value; the `n < 2` failure (`StatisticsError`) is part of
`aggregate` below. -/
noncomputable def statisticsStdev (xs : List ℚ) : ℝ :=
  Real.sqrt ((pySS xs / ((xs.length : ℚ) - 1) : ℚ) : ℝ)

/-- The scalar outputs of the report block (lines 45-62), except the
standard deviation, whose real value is `statisticsStdev` of the
latencies. -/
structure Report where
  minLat : ℚ
  maxLat : ℚ
  avgLat : ℚ
  jitterPico : ℚ
  lastHw : Nat
deriving DecidableEq

/-- The aggregation pass, lines 45-49 and 62, with Python's failure
behaviour: `min` on an empty sequence raises `ValueError` before anything
else; `statistics.stdev` raises `StatisticsError` when fewer than two data
points are present, after `min`, `max` and `mean` were already computed and
before `jitter` is.  `lastHw` is `hw_timestamps[-1]`. -/
def aggregate (lats : List ℚ) (hws : List Nat) : Except RunError Report :=
  match listMin lats, listMax lats with
  | some mn, some mx =>
    let avg := mean lats
    if lats.length < 2 then Except.error RunError.statisticsError
    else Except.ok ⟨mn, mx, avg, mx - mn, hws.getLastD 0⟩
  | _, _ => Except.error RunError.valueError

/-- Effects of the setup block, lines 15-17. -/
def setupTrace : List Action :=
  [Action.socketOpen, Action.socketConnect, Action.setTimeout]

/-- A whole run: its effect trace and its result. -/
structure Outcome where
  trace : List Action
  result : Except RunError Report

/-- The whole script for a given sample count: socket setup, `gc.collect()`
and `gc.disable()` (lines 26-27), the `try` loop, `gc.enable()` in
`finally` (line 43, reached on every exit path), then aggregation and the
printed report.  An exception anywhere aborts with a nonzero status and no
report. -/
def runProgram (e : Env) (count : Nat) : Outcome :=
  let base := setupTrace ++ [Action.gcCollect, Action.gcDisable] ++
    loopTrace e 0 count ++ [Action.gcEnable]
  match runLoop e count with
  | Except.error err => ⟨base, Except.error err⟩
  | Except.ok (lats, hws) =>
    match aggregate lats hws with
    | Except.error err => ⟨base, Except.error err⟩
    | Except.ok r => ⟨base ++ [Action.printReport], Except.ok r⟩

/-- The sample standard deviation exactly as the spec words it:
`sqrt(sum((x_i - mean)^2) / (N - 1))`, the Bessel-corrected formula.
Stated independently of `statisticsStdev` so the two can be compared. -/
noncomputable def specSampleStdev (xs : List ℚ) : ℝ :=
  Real.sqrt (((xs.map (fun x => (x - mean xs) ^ 2)).sum /
    ((xs.length : ℚ) - 1) : ℚ) : ℝ)

/-- Whether iteration `i` completes without an exception, as a Boolean. -/
def iterOkB (e : Env) (i : Nat) : Bool :=
  match runIter e i with
  | Except.ok _ => true
  | Except.error _ => false

/-- The latency the script stores for iteration `k` (line 38). -/
def latAt (e : Env) (k : Nat) : ℚ := (e.t1 k - e.t0 k) * 1000000

/-- The hardware timestamp the script stores for iteration `k` when a
datagram arrives (line 40); unused default on non-datagram events. -/
def hwAt (e : Env) (k : Nat) : Nat :=
  match e.recvEv k with
  | RecvEvent.datagram p => leDecode (recv8 p)
  | _ => 0

/-- A well-behaved peer: immediate responses encoding the value 7,
a clock that never advances. -/
def benignEnv : Env :=
  ⟨fun _ => 0, fun _ => 0, fun _ => RecvEvent.datagram (leEncode 7)⟩

/-- The hardware values of the spec's concrete scenario. -/
def hwVals : Nat → Nat := fun i => [100, 105, 99, 200, 201].getD i 0

/-- The spec's concrete scenario: a peer echoing the hardware values
100, 105, 99, 200, 201 in order. -/
def env5 : Env :=
  ⟨fun _ => 0, fun _ => 0,
   fun i => RecvEvent.datagram (leEncode ([100, 105, 99, 200, 201].getD i 0))⟩

/-- A peer echoing 42 with one second of round-trip time per sample. -/
def envOne : Env :=
  ⟨fun _ => 0, fun _ => 1, fun _ => RecvEvent.datagram (leEncode 42)⟩

/-- A peer that answers every request with a 3-byte datagram. -/
def envShort : Env :=
  ⟨fun _ => 0, fun _ => 0, fun _ => RecvEvent.datagram [1, 2, 3]⟩

/-- A peer that never answers: every receive times out. -/
def envTimeout : Env :=
  ⟨fun _ => 0, fun _ => 0, fun _ => RecvEvent.timeout⟩

/-- A peer that answers every request with a 10-byte datagram whose first
8 bytes encode the value 5. -/
def envBig : Env :=
  ⟨fun _ => 0, fun _ => 0,
   fun _ => RecvEvent.datagram (leEncode 5 ++ [9, 9])⟩

theorem leEncodeAux_length (k : Nat) : ∀ v, (leEncodeAux k v).length = k := by
  induction k with
  | zero => intro v; rfl
  | succ k ih => intro v; simp [leEncodeAux, ih]

theorem leEncode_length (v : Nat) : (leEncode v).length = 8 :=
  leEncodeAux_length 8 v

theorem leDecode_cons (b : Nat) (bs : List Nat) :
    leDecode (b :: bs) = b + 256 * leDecode bs := rfl

theorem leDecode_leEncodeAux (k : Nat) :
    ∀ v, leDecode (leEncodeAux k v) = v % 256 ^ k := by
  induction k with
  | zero => intro v; simp [leEncodeAux, leDecode, Nat.mod_one]
  | succ k ih =>
    intro v
    rw [leEncodeAux, leDecode_cons, ih (v / 256), pow_succ, mul_comm (256 ^ k) 256,
      Nat.mod_mul]

theorem leDecode_leEncode (v : Nat) (hv : v < 2 ^ 64) :
    leDecode (leEncode v) = v := by
  have h : (256 : Nat) ^ 8 = 2 ^ 64 := by norm_num
  rw [leEncode, leDecode_leEncodeAux, h, Nat.mod_eq_of_lt hv]

theorem pymin_eq_min (a b : ℚ) : pymin a b = min a b := by
  rw [pymin, min_def]

theorem pymax_eq_max (a b : ℚ) : pymax a b = max a b := by
  rcases le_total a b with h | h
  · rw [max_eq_right h, pymax]
    by_cases h2 : b ≤ a
    · rw [if_pos h2, le_antisymm h2 h]
    · rw [if_neg h2]
  · rw [max_eq_left h, pymax, if_pos h]

theorem foldl_pymin (xs : List ℚ) (x : ℚ) :
    xs.foldl pymin x = xs.foldl min x := by
  have h : pymin = fun a b => min a b :=
    funext fun a => funext fun b => pymin_eq_min a b
  rw [h]

theorem foldl_pymax (xs : List ℚ) (x : ℚ) :
    xs.foldl pymax x = xs.foldl max x := by
  have h : pymax = fun a b => max a b :=
    funext fun a => funext fun b => pymax_eq_max a b
  rw [h]

theorem foldl_min_mem (xs : List ℚ) : ∀ x, xs.foldl min x ∈ x :: xs := by
  induction xs with
  | nil => intro x; simp
  | cons a l ih =>
    intro x
    have h := ih (min x a)
    rcases min_choice x a with hc | hc <;>
      rcases List.mem_cons.mp h with h1 | h1 <;>
      simp [List.foldl_cons, hc ▸ h1] <;> rw [← hc] <;> simp [h1]

theorem foldl_min_le (xs : List ℚ) : ∀ x y, y ∈ x :: xs → xs.foldl min x ≤ y := by
  induction xs with
  | nil =>
    intro x y hy
    rw [List.mem_singleton.mp hy]
    exact le_refl x
  | cons a l ih =>
    intro x y hy
    have hbase : l.foldl min (min x a) ≤ min x a :=
      ih (min x a) (min x a) (List.mem_cons_self _ _)
    rw [List.foldl_cons]
    rcases List.mem_cons.mp hy with h1 | h1
    · rw [h1]; exact le_trans hbase (min_le_left x a)
    · rcases List.mem_cons.mp h1 with h2 | h2
      · rw [h2]; exact le_trans hbase (min_le_right x a)
      · exact ih (min x a) y (List.mem_cons_of_mem _ h2)

theorem foldl_max_mem (xs : List ℚ) : ∀ x, xs.foldl max x ∈ x :: xs := by
  induction xs with
  | nil => intro x; simp
  | cons a l ih =>
    intro x
    have h := ih (max x a)
    rcases max_choice x a with hc | hc <;>
      rcases List.mem_cons.mp h with h1 | h1 <;>
      simp [List.foldl_cons, hc ▸ h1] <;> rw [← hc] <;> simp [h1]

theorem foldl_max_ge (xs : List ℚ) : ∀ x y, y ∈ x :: xs → y ≤ xs.foldl max x := by
  induction xs with
  | nil =>
    intro x y hy
    rw [List.mem_singleton.mp hy]
    exact le_refl x
  | cons a l ih =>
    intro x y hy
    have hbase : max x a ≤ l.foldl max (max x a) :=
      ih (max x a) (max x a) (List.mem_cons_self _ _)
    rw [List.foldl_cons]
    rcases List.mem_cons.mp hy with h1 | h1
    · rw [h1]; exact le_trans (le_max_left x a) hbase
    · rcases List.mem_cons.mp h1 with h2 | h2
      · rw [h2]; exact le_trans (le_max_right x a) hbase
      · exact ih (max x a) y (List.mem_cons_of_mem _ h2)

theorem sum_map_sub (xs : List ℚ) (c : ℚ) :
    (xs.map (fun x => x - c)).sum = xs.sum - xs.length * c := by
  induction xs with
  | nil => simp
  | cons a l ih =>
    simp only [List.map_cons, List.sum_cons, ih, List.length_cons]
    push_cast
    ring

theorem pySS_eq (xs : List ℚ) (h : xs ≠ []) :
    pySS xs = (xs.map (fun x => (x - mean xs) ^ 2)).sum := by
  have hn : (xs.length : ℚ) ≠ 0 := by
    exact_mod_cast (List.length_pos.mpr h).ne'
  have hz : xs.sum - (xs.length : ℚ) * mean xs = 0 := by
    rw [mean]
    field_simp
  rw [pySS, sum_map_sub, hz]
  simp

theorem statisticsStdev_eq (xs : List ℚ) (h : xs ≠ []) :
    statisticsStdev xs = specSampleStdev xs := by
  rw [statisticsStdev, specSampleStdev, pySS_eq xs h]

theorem iterOkB_ok (e : Env) (i : Nat) (h : iterOkB e i = true) :
    ∃ x, runIter e i = Except.ok x := by
  rw [iterOkB] at h
  cases hr : runIter e i with
  | ok x => exact ⟨x, rfl⟩
  | error err => rw [hr] at h; simp at h

theorem runIter_ok_datagram (e : Env) (i : Nat) (p : List Nat)
    (hev : e.recvEv i = RecvEvent.datagram p) (hlen : (recv8 p).length = 8) :
    runIter e i = Except.ok (latAt e i, leDecode (recv8 p)) := by
  simp [runIter, hev, unpackQ, hlen, latAt]

theorem runIter_datagram_short (e : Env) (i : Nat) (p : List Nat)
    (hev : e.recvEv i = RecvEvent.datagram p) (hlen : (recv8 p).length ≠ 8) :
    runIter e i = Except.error (RunError.structErrorAt i) := by
  simp [runIter, hev, unpackQ, hlen]

theorem runIter_ok_lat (e : Env) (i : Nat) (lat : ℚ) (hw : Nat)
    (h : runIter e i = Except.ok (lat, hw)) : lat = latAt e i := by
  rw [runIter] at h
  split at h
  · simp at h
  · simp at h
  · split at h
    · simp at h
    · simp only [Except.ok.injEq, Prod.mk.injEq] at h
      rw [← h.1, latAt]

theorem runLoopFrom_ok_of (e : Env) : ∀ (n i : Nat),
    (∀ k, k < n → ∃ p, e.recvEv (i + k) = RecvEvent.datagram p ∧
      (recv8 p).length = 8) →
    runLoopFrom e i n =
      Except.ok ((List.range' i n).map (latAt e), (List.range' i n).map (hwAt e)) := by
  intro n
  induction n with
  | zero => intro i _; simp [runLoopFrom]
  | succ n ih =>
    intro i h
    obtain ⟨p, hp, hlen⟩ := h 0 (Nat.succ_pos n)
    rw [Nat.add_zero] at hp
    have hiter := runIter_ok_datagram e i p hp hlen
    have hrec := ih (i + 1) (fun k hk => by
      have hh := h (k + 1) (by omega)
      rwa [show i + (k + 1) = i + 1 + k by omega] at hh)
    have hhw : hwAt e i = leDecode (recv8 p) := by rw [hwAt, hp]
    rw [runLoopFrom, hiter, hrec, List.range'_succ]
    simp [hhw]

theorem runLoopFrom_ok_shape (e : Env) : ∀ (n i : Nat) (lats : List ℚ) (hws : List Nat),
    runLoopFrom e i n = Except.ok (lats, hws) →
    lats = (List.range' i n).map (latAt e) ∧ hws.length = n := by
  intro n
  induction n with
  | zero =>
    intro i lats hws h
    rw [runLoopFrom] at h
    simp only [Except.ok.injEq, Prod.mk.injEq] at h
    simp [← h.1, ← h.2]
  | succ n ih =>
    intro i lats hws h
    rw [runLoopFrom] at h
    cases hiter : runIter e i with
    | error err => rw [hiter] at h; simp at h
    | ok x =>
      obtain ⟨lat, hw⟩ := x
      rw [hiter] at h
      cases hrec : runLoopFrom e (i + 1) n with
      | error err => rw [hrec] at h; simp at h
      | ok y =>
        obtain ⟨ls, hs⟩ := y
        rw [hrec] at h
        simp only [Except.ok.injEq, Prod.mk.injEq] at h
        obtain ⟨hl, hh⟩ := h
        obtain ⟨hls, hhs⟩ := ih (i + 1) ls hs hrec
        constructor
        · rw [← hl, List.range'_succ, List.map_cons, hls,
            runIter_ok_lat e i lat hw hiter]
        · rw [← hh]
          simp [hhs]

theorem runLoopFrom_error (e : Env) : ∀ (m n i : Nat), m < n →
    (∀ j, j < m → iterOkB e (i + j) = true) →
    ∀ err, runIter e (i + m) = Except.error err →
    runLoopFrom e i n = Except.error err := by
  intro m
  induction m with
  | zero =>
    intro n i hmn hok err herr
    rw [Nat.add_zero] at herr
    obtain ⟨n', rfl⟩ := Nat.exists_eq_succ_of_ne_zero (by omega : n ≠ 0)
    rw [runLoopFrom, herr]
  | succ m ih =>
    intro n i hmn hok err herr
    obtain ⟨n', rfl⟩ : ∃ n', n = n' + 1 :=
      Nat.exists_eq_succ_of_ne_zero (by omega)
    obtain ⟨x, hx⟩ := iterOkB_ok e i (by simpa using hok 0 (Nat.succ_pos m))
    have hrec : runLoopFrom e (i + 1) n' = Except.error err := by
      refine ih n' (i + 1) (by omega) (fun j hj => ?_) err ?_
      · have := hok (j + 1) (by omega)
        rwa [show i + (j + 1) = i + 1 + j by omega] at this
      · rwa [show i + 1 + m = i + (m + 1) by omega]
    obtain ⟨lat, hw⟩ := x
    rw [runLoopFrom, hx, hrec]

theorem iterActs_shape (e : Env) (i : Nat) (a : Action) (h : a ∈ iterActs e i) :
    a = Action.sendReq i ∨ a = Action.recvDone i := by
  rw [iterActs] at h
  split at h <;> simp at h <;> simp [h]

theorem loopTrace_shape (e : Env) : ∀ (n i : Nat) (a : Action),
    a ∈ loopTrace e i n →
    (∃ j, a = Action.sendReq j) ∨ ∃ j, a = Action.recvDone j := by
  intro n
  induction n with
  | zero => intro i a h; simp [loopTrace] at h
  | succ n ih =>
    intro i a h
    rw [loopTrace] at h
    cases hiter : runIter e i with
    | error err =>
      rw [hiter] at h
      rcases iterActs_shape e i a h with h1 | h1
      · exact Or.inl ⟨i, h1⟩
      · exact Or.inr ⟨i, h1⟩
    | ok x =>
      rw [hiter] at h
      rcases List.mem_append.mp h with h1 | h1
      · rcases iterActs_shape e i a h1 with h2 | h2
        · exact Or.inl ⟨i, h2⟩
        · exact Or.inr ⟨i, h2⟩
      · exact ih (i + 1) a h1

theorem printReport_not_mem_loopTrace (e : Env) (n i : Nat) :
    Action.printReport ∉ loopTrace e i n := by
  intro h
  rcases loopTrace_shape e n i Action.printReport h with ⟨j, hj⟩ | ⟨j, hj⟩ <;>
    simp at hj

theorem runProgram_loop_error (e : Env) (count : Nat) (err : RunError)
    (h : runLoop e count = Except.error err) :
    runProgram e count =
      ⟨setupTrace ++ [Action.gcCollect, Action.gcDisable] ++
        loopTrace e 0 count ++ [Action.gcEnable], Except.error err⟩ := by
  rw [runProgram, h]

theorem runProgram_agg_error (e : Env) (count : Nat) (err : RunError)
    (lats : List ℚ) (hws : List Nat)
    (hl : runLoop e count = Except.ok (lats, hws))
    (ha : aggregate lats hws = Except.error err) :
    runProgram e count =
      ⟨setupTrace ++ [Action.gcCollect, Action.gcDisable] ++
        loopTrace e 0 count ++ [Action.gcEnable], Except.error err⟩ := by
  simp [runProgram, hl, ha]

theorem runProgram_agg_ok (e : Env) (count : Nat) (r : Report)
    (lats : List ℚ) (hws : List Nat)
    (hl : runLoop e count = Except.ok (lats, hws))
    (ha : aggregate lats hws = Except.ok r) :
    runProgram e count =
      ⟨(setupTrace ++ [Action.gcCollect, Action.gcDisable] ++
        loopTrace e 0 count ++ [Action.gcEnable]) ++ [Action.printReport],
       Except.ok r⟩ := by
  simp [runProgram, hl, ha]

theorem aggregate_cons (x : ℚ) (xs : List ℚ) (hws : List Nat)
    (h2 : ¬ ((x :: xs).length < 2)) :
    aggregate (x :: xs) hws =
      Except.ok ⟨xs.foldl pymin x, xs.foldl pymax x, mean (x :: xs),
        xs.foldl pymax x - xs.foldl pymin x, hws.getLastD 0⟩ := by
  have h2' : ¬ (xs.length + 1 < 2) := by simpa using h2
  rw [aggregate, listMin, listMax]
  simp [h2']

theorem aggregate_ok_inv (lats : List ℚ) (hws : List Nat) (r : Report)
    (h : aggregate lats hws = Except.ok r) :
    2 ≤ lats.length ∧ r.lastHw = hws.getLastD 0 := by
  cases lats with
  | nil => rw [aggregate, listMin] at h; simp at h
  | cons x xs =>
    by_cases h2 : (x :: xs).length < 2
    · have h2' : xs.length + 1 < 2 := by simpa using h2
      rw [aggregate, listMin, listMax] at h
      simp [h2'] at h
    · rw [aggregate_cons x xs hws h2] at h
      simp only [Except.ok.injEq] at h
      rw [← h]
      exact ⟨by omega, rfl⟩

/-- C1: for every fully populated latency sequence of length at least 2
(together with any hardware-timestamp list), the aggregation succeeds and
the reported jitter is exactly `max(seq) - min(seq)`: the difference of an
element that bounds the sequence from above and one that bounds it from
below — the peak-to-peak range, not an RMS-of-successive-differences
measure. -/
theorem C1_jitter_is_peak_to_peak (lats : List ℚ) (hws : List Nat)
    (h2 : 2 ≤ lats.length) :
    ∃ r mx mn, aggregate lats hws = Except.ok r ∧
      mx ∈ lats ∧ (∀ x ∈ lats, x ≤ mx) ∧
      mn ∈ lats ∧ (∀ x ∈ lats, mn ≤ x) ∧
      r.jitterPico = mx - mn := by
  cases lats with
  | nil => simp at h2
  | cons x xs =>
    refine ⟨_, xs.foldl pymax x, xs.foldl pymin x,
      aggregate_cons x xs hws (by omega), ?_, ?_, ?_, ?_, rfl⟩
    · rw [foldl_pymax]; exact foldl_max_mem xs x
    · intro y hy; rw [foldl_pymax]; exact foldl_max_ge xs x y hy
    · rw [foldl_pymin]; exact foldl_min_mem xs x
    · intro y hy; rw [foldl_pymin]; exact foldl_min_le xs x y hy

theorem C1_witness :
    2 ≤ ([1, 3] : List ℚ).length ∧
    ∃ r mx mn, aggregate [1, 3] [] = Except.ok r ∧
      mx ∈ ([1, 3] : List ℚ) ∧ (∀ x ∈ ([1, 3] : List ℚ), x ≤ mx) ∧
      mn ∈ ([1, 3] : List ℚ) ∧ (∀ x ∈ ([1, 3] : List ℚ), mn ≤ x) ∧
      r.jitterPico = mx - mn :=
  ⟨by decide, C1_jitter_is_peak_to_peak [1, 3] [] (by decide)⟩

/-- C2: for every latency sequence of length at least 2, the standard
deviation the script reports (`statistics.stdev`) is exactly the
Bessel-corrected sample standard deviation formula of the spec,
`sqrt(sum((x - mean)^2) / (N - 1))`, and hence in particular within
relative tolerance 1e-9 of it. -/
theorem C2_stdev_is_sample_stdev (xs : List ℚ) (h2 : 2 ≤ xs.length) :
    statisticsStdev xs = specSampleStdev xs ∧
      |statisticsStdev xs - specSampleStdev xs| ≤
        1 / 1000000000 * |specSampleStdev xs| := by
  have hne : xs ≠ [] := by
    intro h
    rw [h] at h2
    simp at h2
  have heq := statisticsStdev_eq xs hne
  refine ⟨heq, ?_⟩
  rw [heq, sub_self, abs_zero]
  positivity

theorem C2_witness :
    2 ≤ ([2, 6] : List ℚ).length ∧
    (statisticsStdev [2, 6] = specSampleStdev [2, 6] ∧
      |statisticsStdev [2, 6] - specSampleStdev [2, 6]| ≤
        1 / 1000000000 * |specSampleStdev [2, 6]|) :=
  ⟨by decide, C2_stdev_is_sample_stdev [2, 6] (by decide)⟩

/-- C3: with COUNT = 1 (an invalid count, below 2) and a well-behaved
peer, the script does not fail fast: it opens and connects the socket,
performs the full exchange of iteration 0, re-enables the collector, and
only then aborts inside the aggregation pass with the StatisticsError
raised by `statistics.stdev` — no insufficient-samples validation happens
before the socket is opened. -/
theorem C3_count_one_fails_only_in_aggregation :
    (runProgram benignEnv 1).result = Except.error RunError.statisticsError ∧
    (runProgram benignEnv 1).trace =
      [Action.socketOpen, Action.socketConnect, Action.setTimeout,
       Action.gcCollect, Action.gcDisable, Action.sendReq 0,
       Action.recvDone 0, Action.gcEnable] := by
  constructor <;>
    simp [runProgram, runLoop, runLoopFrom, runIter, unpackQ, recv8,
      leDecode, leEncode, leEncodeAux, benignEnv, aggregate, listMin,
      listMax, setupTrace, iterActs, loopTrace]

/-- C4: if every iteration before `i` succeeded and iteration `i` receives
a payload that is not exactly 8 bytes, the whole run aborts with the
struct.error of iteration `i`, an error distinct from every timeout
error. -/
theorem C4_short_payload_fatal (e : Env) (count i : Nat) (p : List Nat)
    (hi : i < count)
    (hev : e.recvEv i = RecvEvent.datagram p)
    (hlen : (recv8 p).length ≠ 8)
    (hprev : ∀ j, j < i → iterOkB e j = true) :
    (runProgram e count).result = Except.error (RunError.structErrorAt i) ∧
      ∀ j, RunError.structErrorAt i ≠ RunError.timeoutAt j := by
  have herr : runIter e i = Except.error (RunError.structErrorAt i) :=
    runIter_datagram_short e i p hev hlen
  have hloop : runLoop e count = Except.error (RunError.structErrorAt i) := by
    rw [runLoop]
    exact runLoopFrom_error e i count 0 hi
      (fun j hj => by simpa using hprev j hj) _ (by simpa using herr)
  refine ⟨?_, fun j h => RunError.noConfusion h⟩
  rw [runProgram_loop_error e count _ hloop]

theorem C4_witness :
    0 < 1 ∧ envShort.recvEv 0 = RecvEvent.datagram [1, 2, 3] ∧
    (recv8 [1, 2, 3]).length ≠ 8 ∧
    ((runProgram envShort 1).result =
        Except.error (RunError.structErrorAt 0) ∧
      ∀ j, RunError.structErrorAt 0 ≠ RunError.timeoutAt j) :=
  ⟨by decide, rfl, by decide,
    C4_short_payload_fatal envShort 1 0 [1, 2, 3] (by decide) rfl (by decide)
      (fun j hj => absurd hj (Nat.not_lt_zero j))⟩

/-- C5: if every iteration before `i` succeeded and iteration `i`'s receive
times out or raises a socket error, the whole run aborts with that
iteration's error: the result is an error (so the Aggregator never
produces a report from the partially filled arrays) and no report is ever
printed. -/
theorem C5_timeout_aborts_run (e : Env) (count i : Nat)
    (hi : i < count)
    (hev : e.recvEv i = RecvEvent.timeout ∨ e.recvEv i = RecvEvent.sockError)
    (hprev : ∀ j, j < i → iterOkB e j = true) :
    (∃ err, (runProgram e count).result = Except.error err ∧
      (err = RunError.timeoutAt i ∨ err = RunError.sockErrorAt i)) ∧
    Action.printReport ∉ (runProgram e count).trace := by
  have herr : ∃ err, runIter e i = Except.error err ∧
      (err = RunError.timeoutAt i ∨ err = RunError.sockErrorAt i) := by
    rcases hev with h | h
    · exact ⟨RunError.timeoutAt i, by simp [runIter, h], Or.inl rfl⟩
    · exact ⟨RunError.sockErrorAt i, by simp [runIter, h], Or.inr rfl⟩
  obtain ⟨err, herr, hcase⟩ := herr
  have hloop : runLoop e count = Except.error err := by
    rw [runLoop]
    exact runLoopFrom_error e i count 0 hi
      (fun j hj => by simpa using hprev j hj) err (by simpa using herr)
  rw [runProgram_loop_error e count err hloop]
  refine ⟨⟨err, rfl, hcase⟩, ?_⟩
  intro hmem
  simp [setupTrace] at hmem
  exact printReport_not_mem_loopTrace e count 0 hmem

theorem C5_witness :
    0 < 3 ∧
    (envTimeout.recvEv 0 = RecvEvent.timeout ∨
      envTimeout.recvEv 0 = RecvEvent.sockError) ∧
    ((∃ err, (runProgram envTimeout 3).result = Except.error err ∧
        (err = RunError.timeoutAt 0 ∨ err = RunError.sockErrorAt 0)) ∧
      Action.printReport ∉ (runProgram envTimeout 3).trace) :=
  ⟨by decide, Or.inl rfl,
    C5_timeout_aborts_run envTimeout 3 0 (by decide) (Or.inl rfl)
      (fun j hj => absurd hj (Nat.not_lt_zero j))⟩

/-- C6: for every environment and count, the run's trace performs the full
collection pass and then disables automatic collection immediately before
the measurement loop, whose own actions are only sends and receives (no
collector activity), and re-enables collection immediately after the loop
on every exit path — whether the run then stops (an exception) or goes on
to print the report. -/
theorem C6_gc_scoped_around_loop (e : Env) (count : Nat) :
    ∃ mid post,
      (runProgram e count).trace =
        setupTrace ++ [Action.gcCollect, Action.gcDisable] ++ mid ++
          [Action.gcEnable] ++ post ∧
      (∀ a ∈ mid, (∃ j, a = Action.sendReq j) ∨ ∃ j, a = Action.recvDone j) ∧
      (post = [] ∨ post = [Action.printReport]) := by
  refine ⟨loopTrace e 0 count, ?_⟩
  cases hl : runLoop e count with
  | error err =>
    refine ⟨[], ?_, fun a ha => loopTrace_shape e count 0 a ha, Or.inl rfl⟩
    rw [runProgram_loop_error e count err hl]
    simp
  | ok x =>
    obtain ⟨lats, hws⟩ := x
    cases ha : aggregate lats hws with
    | error err =>
      refine ⟨[], ?_, fun a hm => loopTrace_shape e count 0 a hm, Or.inl rfl⟩
      rw [runProgram_agg_error e count err lats hws hl ha]
      simp
    | ok r =>
      refine ⟨[Action.printReport], ?_,
        fun a hm => loopTrace_shape e count 0 a hm, Or.inr rfl⟩
      rw [runProgram_agg_ok e count r lats hws hl ha]

theorem C6_witness :
    ∃ mid post,
      (runProgram benignEnv 2).trace =
        setupTrace ++ [Action.gcCollect, Action.gcDisable] ++ mid ++
          [Action.gcEnable] ++ post ∧
      (∀ a ∈ mid, (∃ j, a = Action.sendReq j) ∨ ∃ j, a = Action.recvDone j) ∧
      (post = [] ∨ post = [Action.printReport]) :=
  C6_gc_scoped_around_loop benignEnv 2

/-- C7: round-trip — if the peer answers iteration `i` with the 8-byte
little-endian encoding of `v i` (each value below 2^64), the run records
exactly the sequence `v 0, ..., v (count - 1)` as hardware timestamps, in
order. -/
theorem C7_roundtrip_hw_sequence (e : Env) (count : Nat) (v : Nat → Nat)
    (hv : ∀ i, i < count → v i < 2 ^ 64)
    (hev : ∀ i, i < count → e.recvEv i = RecvEvent.datagram (leEncode (v i))) :
    ∃ lats, runLoop e count = Except.ok (lats, (List.range count).map v) := by
  have hok := runLoopFrom_ok_of e count 0 (fun k hk => by
    refine ⟨leEncode (v k), by simpa using hev k hk, ?_⟩
    simp [recv8, List.length_take, leEncode_length])
  have hmap : (List.range' 0 count).map (hwAt e) = (List.range count).map v := by
    rw [List.range_eq_range']
    apply List.map_congr_left
    intro k hk
    have hk' : k < count := by
      have h := List.mem_range'_1.mp hk
      omega
    have htake : recv8 (leEncode (v k)) = leEncode (v k) := by
      rw [recv8]
      exact List.take_of_length_le (le_of_eq (leEncode_length (v k)))
    simp [hwAt, hev k hk', htake, leDecode_leEncode (v k) (hv k hk')]
  exact ⟨(List.range' 0 count).map (latAt e), by rw [runLoop, hok, hmap]⟩

theorem C7_witness :
    (∀ i, i < 5 → hwVals i < 2 ^ 64) ∧
    ∃ lats, runLoop env5 5 = Except.ok (lats, (List.range 5).map hwVals) :=
  ⟨by decide, C7_roundtrip_hw_sequence env5 5 hwVals (by decide) (fun _ _ => rfl)⟩

/-- C8: on normal completion the run has at least 2 samples and the
reported hardware timestamp is exactly the one recorded at the final
sample index `count - 1`. -/
theorem C8_reports_last_hw (e : Env) (count : Nat) (r : Report)
    (hok : (runProgram e count).result = Except.ok r) :
    ∃ lats hws, runLoop e count = Except.ok (lats, hws) ∧ 2 ≤ count ∧
      ∃ hl : count - 1 < hws.length,
        r.lastHw = hws.get ⟨count - 1, hl⟩ := by
  cases hl : runLoop e count with
  | error err =>
    rw [runProgram_loop_error e count err hl] at hok
    simp at hok
  | ok x =>
    obtain ⟨lats, hws⟩ := x
    cases ha : aggregate lats hws with
    | error err =>
      rw [runProgram_agg_error e count err lats hws hl ha] at hok
      simp at hok
    | ok r' =>
      rw [runProgram_agg_ok e count r' lats hws hl ha] at hok
      have hr : r' = r := by simpa using hok
      subst hr
      obtain ⟨h2, hlast⟩ := aggregate_ok_inv lats hws r' ha
      obtain ⟨hshape, hlen⟩ := runLoopFrom_ok_shape e count 0 lats hws hl
      have hlatslen : lats.length = count := by
        rw [hshape]
        simp
      have hcnt : 2 ≤ count := by omega
      have hpos : count - 1 < hws.length := by omega
      refine ⟨lats, hws, rfl, hcnt, hpos, ?_⟩
      have hidx : hws.length - 1 = count - 1 := by omega
      rw [hlast, List.getLastD_eq_getLast?, List.getLast?_eq_get?, hidx,
        List.get?_eq_get hpos]
      rfl

theorem C8_witness :
    (runProgram env5 5).result = Except.ok ⟨0, 0, 0, 0, 201⟩ ∧
    ∃ lats hws, runLoop env5 5 = Except.ok (lats, hws) ∧ 2 ≤ 5 ∧
      ∃ hl : 5 - 1 < hws.length,
        (⟨0, 0, 0, 0, 201⟩ : Report).lastHw = hws.get ⟨5 - 1, hl⟩ := by
  have h : (runProgram env5 5).result = Except.ok ⟨0, 0, 0, 0, 201⟩ := by
    simp [runProgram, runLoop, runLoopFrom, runIter, unpackQ, recv8,
      leDecode, leEncode, leEncodeAux, env5, aggregate, listMin, listMax,
      pymin, pymax, mean, setupTrace, iterActs, loopTrace]
  exact ⟨h, C8_reports_last_hw env5 5 _ h⟩

/-- C9: whenever the loop completes, the stored latency sequence is,
position by position, `(t1 - t0) * 1_000_000` — the elapsed monotonic time
of iteration `i` converted to microseconds. -/
theorem C9_latency_formula (e : Env) (count : Nat)
    (lats : List ℚ) (hws : List Nat)
    (hok : runLoop e count = Except.ok (lats, hws)) :
    lats = (List.range count).map (fun i => (e.t1 i - e.t0 i) * 1000000) := by
  obtain ⟨hshape, _⟩ := runLoopFrom_ok_shape e count 0 lats hws hok
  rw [hshape, List.range_eq_range']
  rfl

theorem C9_witness :
    runLoop envOne 2 = Except.ok ([1000000, 1000000], [42, 42]) ∧
    ([1000000, 1000000] : List ℚ) =
      (List.range 2).map (fun i => (envOne.t1 i - envOne.t0 i) * 1000000) := by
  have h : runLoop envOne 2 =
      Except.ok (([1000000, 1000000] : List ℚ), ([42, 42] : List Nat)) := by
    simp [runLoop, runLoopFrom, runIter, unpackQ, recv8, leDecode,
      leEncode, leEncodeAux, envOne]
  exact ⟨h, C9_latency_formula envOne 2 _ _ h⟩

/-- C10: when every response datagram carries at least 8 bytes — also
strictly more than 8 — the run treats each exchange as successful (it
completes with no error) and stores, at each index, the decoding of only
the first 8 bytes of the payload; an oversized response is never reported
as malformed. -/
theorem C10_oversized_response_accepted (e : Env) (count : Nat)
    (hbig : ∀ i, i < count →
      ∃ p, e.recvEv i = RecvEvent.datagram p ∧ 8 ≤ p.length) :
    ∃ lats hws, runLoop e count = Except.ok (lats, hws) ∧
      ∀ i p, i < count → e.recvEv i = RecvEvent.datagram p →
        hws.get? i = some (leDecode (p.take 8)) := by
  have hok := runLoopFrom_ok_of e count 0 (fun k hk => by
    obtain ⟨p, hp, hlen⟩ := hbig k hk
    refine ⟨p, by simpa using hp, ?_⟩
    simp [recv8, List.length_take]
    omega)
  refine ⟨_, _, by rw [runLoop]; exact hok, ?_⟩
  intro i p hi hp
  rw [List.get?_map, List.get?_range' 0 1 hi]
  simp [hwAt, hp, recv8]

theorem C10_witness :
    (∀ i, i < 1 →
      ∃ p, envBig.recvEv i = RecvEvent.datagram p ∧ 8 ≤ p.length) ∧
    ∃ lats hws, runLoop envBig 1 = Except.ok (lats, hws) ∧
      ∀ i p, i < 1 → envBig.recvEv i = RecvEvent.datagram p →
        hws.get? i = some (leDecode (p.take 8)) :=
  ⟨fun _ _ => ⟨leEncode 5 ++ [9, 9], rfl, by decide⟩,
    C10_oversized_response_accepted envBig 1
      (fun _ _ => ⟨leEncode 5 ++ [9, 9], rfl, by decide⟩)⟩

end MeasureJitter
